import Mathlib

/-!
Verification development for the SchoolDoc action-brief pipeline
(`src/streamlit_app.py`).  Python strings are embedded as `List Char`;
Python floats occurring in the sentence-scoring formula are embedded as
exact rationals (`ℚ`) — every property proved below is insensitive to
that choice because it never depends on rounding of the scores.
All functions are translated directly from the source; the only
definitions that do not come from `src/` are explicitly marked
"Modelled from the spec".
-/

namespace Brieftool

/-- The characters Python `str.strip()` removes (ASCII whitespace used by
`str.strip`, `\s`, and `str.isspace` for the inputs occurring here). -/
def isPySpace (c : Char) : Bool :=
  c = ' ' || c = '\t' || c = '\n' || c = '\r' || c = '\x0b' || c = '\x0c'

/-- ASCII decimal digit. -/
def isDigitCh (c : Char) : Bool := '0' ≤ c && c ≤ '9'

/-- ASCII letter (the `[A-Za-z]` class). -/
def isAlphaCh (c : Char) : Bool := ('A' ≤ c && c ≤ 'Z') || ('a' ≤ c && c ≤ 'z')

/-- Python regex word character (`\w` over ASCII): letter, digit or `_`. -/
def isWordCh (c : Char) : Bool := isAlphaCh c || isDigitCh c || c = '_'

/-- ASCII lower-casing, as Python `str.lower()` acts on the ASCII range. -/
def lowerCh (c : Char) : Char :=
  if 'A' ≤ c && c ≤ 'Z' then Char.ofNat (c.toNat + 32) else c

/-- Lower-case a whole string (Python `str.lower()`). -/
def lowerStr (s : List Char) : List Char := s.map lowerCh

/-- Python `str.strip()` (no argument): drop whitespace from both ends. -/
def pyStrip (s : List Char) : List Char :=
  ((s.dropWhile isPySpace).reverse.dropWhile isPySpace).reverse

/-- Python `str.strip(chars)`: drop any of the given characters from both
ends; used for `l.strip(" -•*\t")` in `find_key_points`. -/
def pyStripSet (cs : List Char) (s : List Char) : List Char :=
  ((s.dropWhile (cs.contains ·)).reverse.dropWhile (cs.contains ·)).reverse

/-- One step of `str.splitlines`: cut the input at every line boundary
(`\n`, `\r\n`, `\r` and the other single-character boundaries Python
recognises), keeping empty interior pieces. -/
def splitNlAux (acc : List Char) : List Char → List (List Char)
  | [] => [acc.reverse]
  | '\r' :: '\n' :: r => acc.reverse :: splitNlAux [] r
  | c :: r =>
    if c = '\n' || c = '\r' || c = '\x0b' || c = '\x0c' ||
       c = '\x1c' || c = '\x1d' || c = '\x1e' || c = '\x85' ||
       c.toNat = 0x2028 || c.toNat = 0x2029 then
      acc.reverse :: splitNlAux [] r
    else
      splitNlAux (c :: acc) r

/-- Python `str.splitlines()`: like `splitNlAux` but empty input gives no
lines, and a trailing line boundary does not create a final empty line. -/
def splitlines (s : List Char) : List (List Char) :=
  if s = [] then []
  else
    let ps := splitNlAux [] s
    if ps.getLast? = some [] then ps.dropLast else ps

/-- `" ".join(xs)` on embedded strings. -/
def joinSpace (xs : List (List Char)) : List Char := List.intercalate [' '] xs

/-- The stop-word set `STOPWORDS` of the source, in source order. -/
def STOPWORDS : List (List Char) :=
  (["a", "about", "above", "after", "again", "against", "all", "am", "an",
    "and", "any", "are", "aren't", "as", "at", "be", "because", "been",
    "before", "being", "below", "between", "both", "but", "by", "can't",
    "cannot", "could", "couldn't", "did", "didn't", "do", "does", "doesn't",
    "doing", "don't", "down", "during", "each", "few", "for", "from",
    "further", "had", "hadn't", "has", "hasn't", "have", "haven't", "having",
    "he", "he'd", "he'll", "he's", "her", "here", "here's", "hers",
    "herself", "him", "himself", "his", "how", "how's", "i", "i'd", "i'll",
    "i'm", "i've", "if", "in", "into", "is", "isn't", "it", "it's", "its",
    "itself", "let's", "me", "more", "most", "mustn't", "my", "myself",
    "no", "nor", "not", "of", "off", "on", "once", "only", "or", "other",
    "ought", "our", "ours", "ourselves", "out", "over", "own", "same",
    "shan't", "she", "she'd", "she'll", "she's", "should", "shouldn't",
    "so", "some", "such", "than", "that", "that's", "the", "their",
    "theirs", "them", "themselves", "then", "there", "there's", "these",
    "they", "they'd", "they'll", "they're", "they've", "this", "those",
    "through", "to", "too", "under", "until", "up", "very", "was", "wasn't",
    "we", "we'd", "we'll", "we're", "we've", "were", "weren't", "what",
    "what's", "when", "when's", "where", "where's", "which", "while",
    "who", "who's", "whom", "why", "why's", "with", "won't", "would",
    "wouldn't", "you", "you'd", "you'll", "you're", "you've", "your",
    "yours", "yourself", "yourselves"]).map String.toList

/-- The terminal punctuation characters of the sentence splitter. -/
def isTermCh (c : Char) : Bool := c = '.' || c = '!' || c = '?'

/-- Scanner for `re.split(r'(?<=[.!?])\s+', text)`.  Mode 0: inside a
piece, previous character not terminal; mode 1: inside a piece, previous
character one of `.!?`; mode 2: consuming the whitespace run of a
separator (the piece before it has already been emitted). -/
def ssplitAux (mode : Nat) (acc : List Char) : List Char → List (List Char)
  | [] => [acc.reverse]
  | c :: rest =>
    if mode = 2 then
      if isPySpace c then ssplitAux 2 [] rest
      else ssplitAux (if isTermCh c then 1 else 0) [c] rest
    else if mode = 1 && isPySpace c then
      acc.reverse :: ssplitAux 2 [] rest
    else
      ssplitAux (if isTermCh c then 1 else 0) (c :: acc) rest

/-- `sentence_split` of the source: regex-split the stripped text after
terminal punctuation, strip each fragment, keep the non-empty ones. -/
def sentence_split (text : List Char) : List (List Char) :=
  ((ssplitAux 0 [] (pyStrip text)).map pyStrip).filter (· ≠ [])

/-- Is this character matched by the token pattern `[A-Za-z']+`? -/
def isTokCh (c : Char) : Bool := isAlphaCh c || c = '\''

/-- Scanner for `re.findall(r"[A-Za-z']+", text)` with each hit
lower-cased, i.e. `word_tokens` of the source. -/
def wordTokensAux (acc : List Char) : List Char → List (List Char)
  | [] => if acc = [] then [] else [acc.reverse]
  | c :: rest =>
    if isTokCh c then wordTokensAux (lowerCh c :: acc) rest
    else if acc = [] then wordTokensAux [] rest
    else acc.reverse :: wordTokensAux [] rest

/-- `word_tokens` of the source. -/
def word_tokens (text : List Char) : List (List Char) := wordTokensAux [] text

/-- Increment a token's count in an insertion-ordered association list
(the behaviour of the Python dict built in `summarize_text`). -/
def bumpTok (w : List Char) : List (List Char × Nat) → List (List Char × Nat)
  | [] => [(w, 1)]
  | (k, n) :: rest => if k = w then (k, n + 1) :: rest else (k, n) :: bumpTok w rest

/-- The raw term-frequency loop of `summarize_text`: stop-words and tokens
of length at most 2 are skipped, every other token is counted. -/
def buildFreqAux (acc : List (List Char × Nat)) : List (List Char) → List (List Char × Nat)
  | [] => acc
  | w :: ws =>
    if STOPWORDS.contains w || w.length ≤ 2 then buildFreqAux acc ws
    else buildFreqAux (bumpTok w acc) ws

/-- Raw (un-normalised) term-frequency table of a token list. -/
def buildFreq (ws : List (List Char)) : List (List Char × Nat) := buildFreqAux [] ws

/-- `max(freq.values())` (0 on the empty table, which the source guards). -/
def maxCount (tbl : List (List Char × Nat)) : Nat :=
  tbl.foldl (fun m kv => max m kv.2) 0

/-- The normalised frequency table: each count divided by the maximum. -/
def freqTable (ws : List (List Char)) : List (List Char × ℚ) :=
  let raw := buildFreq ws
  let m := maxCount raw
  raw.map (fun kv => (kv.1, (kv.2 : ℚ) / (m : ℚ)))

/-- `freq.get(t, 0)`. -/
def lookupQ (tbl : List (List Char × ℚ)) (w : List Char) : ℚ :=
  match tbl.find? (fun kv => kv.1 = w) with
  | none => 0
  | some kv => kv.2

/-- The sentence score of `summarize_text`: summed normalised token
weights times the length-regularisation factor around 24 tokens. -/
def sentenceScore (tbl : List (List Char × ℚ)) (toks : List (List Char)) : ℚ :=
  let length : Nat := max 1 toks.length
  let lengthPenalty : ℚ := 1 - min (6/10 : ℚ) (|((length : ℚ)) - 24| / 25)
  ((toks.map (lookupQ tbl)).sum) * (4/10 + 6/10 * lengthPenalty)

/-- The `scored` list of `summarize_text`: each sentence with its 0-based
index and score, skipping sentences with no tokens. -/
def scoredAux (tbl : List (List Char × ℚ)) (i : Nat) :
    List (List Char) → List (Nat × List Char × ℚ)
  | [] => []
  | s :: rest =>
    let toks := word_tokens s
    if toks = [] then scoredAux tbl (i + 1) rest
    else (i, s, sentenceScore tbl toks) :: scoredAux tbl (i + 1) rest

/-- All scored sentences of a text. -/
def scoredOf (text : List Char) : List (Nat × List Char × ℚ) :=
  scoredAux (freqTable (word_tokens text)) 0 (sentence_split text)

/-- Stable insertion into a list sorted by the boolean relation `le`:
the new element goes before the first element it is `le`-related to.
With `le x y = (key y ≤ key x)` this reproduces Python's stable
`sorted(..., reverse=True)`; with `le x y = (key x ≤ key y)` it
reproduces the stable ascending `sorted`. -/
def insSorted (le : α → α → Bool) (x : α) : List α → List α
  | [] => [x]
  | y :: ys => if le x y then x :: y :: ys else y :: insSorted le x ys

/-- Stable insertion sort by the boolean relation `le`. -/
def isortBy (le : α → α → Bool) : List α → List α
  | [] => []
  | x :: xs => insSorted le x (isortBy le xs)

/-- Descending-by-score comparison used for `sorted(scored, key=score,
reverse=True)`. -/
def leScore (a b : Nat × List Char × ℚ) : Bool := decide (b.2.2 ≤ a.2.2)

/-- Ascending-by-index comparison used for `sorted(top, key=index)`. -/
def leIdx (a b : Nat × List Char × ℚ) : Bool := decide (a.1 ≤ b.1)

/-- `top` of `summarize_text`: the `k` best-scoring sentences, score ties
resolved by the stability of Python's sort. -/
def topOf (text : List Char) (k : Nat) : List (Nat × List Char × ℚ) :=
  (isortBy leScore (scoredOf text)).take k

/-- `top_sorted` of `summarize_text` (still carrying index and score):
the selected sentences re-sorted into original order. -/
def summarize_selected (text : List Char) (k : Nat) : List (Nat × List Char × ℚ) :=
  isortBy leIdx (topOf text k)

/-- `summarize_text` of the source (default `max_sentences = 5` is
supplied by callers). -/
def summarize_text (text : List Char) (max_sentences : Nat) : List Char :=
  let sents := sentence_split text
  if sents = [] then []
  else
    let words := word_tokens text
    if words = [] then [' ']
    else
      if buildFreq words = [] then joinSpace (sents.take max_sentences)
      else pyStrip (joinSpace ((summarize_selected text max_sentences).map (fun t => t.2.1)))

/-! ### A small backtracking regex engine

The source uses a handful of `re` patterns built from literals, character
classes, bounded/unbounded greedy repetition of a class, optional pieces,
alternation and the `\b` word-boundary assertion.  `runRE` enumerates the
possible (last-consumed-character, remaining-input) pairs of a match in
Python's priority order (alternatives left to right, repetitions
greedily), which is all `re.search`, `re.match`, `re.findall` and the
anchored `re.sub` below need. -/

inductive RE where
  | eps : RE
  | cls (p : Char → Bool) : RE
  | seq (a b : RE) : RE
  | alt (a b : RE) : RE
  | opt (a : RE) : RE
  | rep (p : Char → Bool) (lo hi : Nat) : RE
  | plusCls (p : Char → Bool) : RE
  | starCls (p : Char → Bool) : RE
  | wb : RE

/-- Length of the maximal prefix of `s` inside the class `p`. -/
def runLen (p : Char → Bool) (s : List Char) : Nat := (s.takeWhile p).length

/-- The state after consuming exactly `j` characters of `s`, remembering
the last consumed character (or the incoming one if `j = 0`). -/
def cutAt (prev : Option Char) (s : List Char) (j : Nat) : Option Char × List Char :=
  (if j = 0 then prev else (s.take j).getLast?, s.drop j)

/-- Greedy enumeration of a class repetition `p{lo,hi}`: longest first. -/
def repStates (p : Char → Bool) (lo hi : Nat) (prev : Option Char) (s : List Char) :
    List (Option Char × List Char) :=
  let m := min hi (runLen p s)
  if m < lo then []
  else (List.range (m + 1 - lo)).map (fun t => cutAt prev s (m - t))

/-- Is there a `\b` word boundary between `prev` and the start of `s`? -/
def atBoundary (prev : Option Char) (s : List Char) : Bool :=
  let pw := match prev with | none => false | some c => isWordCh c
  let nw := match s.head? with | none => false | some c => isWordCh c
  pw != nw

/-- All ways a regex can match a prefix of `s` (priority order), each
given as the last character consumed plus the remaining input. -/
def runRE : RE → Option Char → List Char → List (Option Char × List Char)
  | .eps, prev, s => [(prev, s)]
  | .cls p, _prev, s =>
    match s with
    | [] => []
    | c :: r => if p c then [(some c, r)] else []
  | .seq a b, prev, s => (runRE a prev s).flatMap (fun st => runRE b st.1 st.2)
  | .alt a b, prev, s => runRE a prev s ++ runRE b prev s
  | .opt a, prev, s => runRE a prev s ++ [(prev, s)]
  | .rep p lo hi, prev, s => repStates p lo hi prev s
  | .plusCls p, prev, s => repStates p 1 (runLen p s) prev s
  | .starCls p, prev, s => repStates p 0 (runLen p s) prev s
  | .wb, prev, s => if atBoundary prev s then [(prev, s)] else []

/-- Does the regex match somewhere in `s` (`re.search`), scanning start
positions left to right with the correct look-behind character? -/
def searchAux (re : RE) (prev : Option Char) : List Char → Bool
  | [] => !(runRE re prev []).isEmpty
  | c :: rest =>
    if !(runRE re prev (c :: rest)).isEmpty then true else searchAux re (some c) rest

/-- `re.search(pattern, s) is not None`. -/
def reSearch (re : RE) (s : List Char) : Bool := searchAux re none s

/-- `re.match(pattern, s) is not None` for the `^`-anchored patterns of
the source: only position 0 is tried. -/
def matchHead (re : RE) (s : List Char) : Bool := !(runRE re none s).isEmpty

/-- `re.sub("^" + pattern, "", s)`: drop the (unique, anchored) match if
there is one.  The first state in `runRE`'s priority order is the one
Python's leftmost-greedy matching commits to. -/
def subHead (re : RE) (s : List Char) : List Char :=
  match runRE re none s with
  | [] => s
  | st :: _ => st.2

/-- `re.findall` for the date pattern: scan left to right, commit to the
highest-priority match at the first position that has one, continue
after it.  (The source's date pattern can never match the empty string,
so a match always consumes at least one character.)  The fuel argument —
initialised to the input length, which every scan step decreases —
makes the recursion structural. -/
def findallAux (re : RE) : Nat → Option Char → List Char → List (List Char)
  | 0, _, _ => []
  | _ + 1, _, [] => []
  | fuel + 1, prev, c :: rest =>
    match runRE re prev (c :: rest) with
    | [] => findallAux re fuel (some c) rest
    | st :: _ =>
      if st.2.length < rest.length + 1 then
        (c :: rest).take (rest.length + 1 - st.2.length) :: findallAux re fuel st.1 st.2
      else
        findallAux re fuel (some c) rest

/-- `re.findall(pattern, s)` (whole-pattern matches, as for the source's
group-free date pattern). -/
def reFindall (re : RE) (s : List Char) : List (List Char) :=
  findallAux re s.length none s

/-- A case-sensitive literal. -/
def litCS (s : List Char) : RE := (s.map (fun c => RE.cls (· = c))).foldr RE.seq RE.eps

/-- A case-insensitive literal (all the keyword patterns of the source
are compiled with `re.I`). -/
def litI (s : List Char) : RE :=
  (s.map (fun c => RE.cls (fun x => lowerCh x = c))).foldr RE.seq RE.eps

/-- Fold a non-empty list of alternatives left to right. -/
def altList (r : RE) (rs : List RE) : RE := rs.foldl RE.alt r

/-- `\b(deadline|due|submit by|no later than)\b` with `re.I`. -/
def hitRE : RE :=
  .seq .wb (.seq (altList (litI ("deadline".toList))
    [litI ("due".toList), litI ("submit by".toList), litI ("no later than".toList)]) .wb)

/-- `\b(must|required?|need to|provide|eligib|documentation|proof|return|submit)\b`
with `re.I`. -/
def reqKwRE : RE :=
  .seq .wb (.seq (altList (litI ("must".toList))
    [.seq (litI ("require".toList)) (.opt (litI ("d".toList))),
     litI ("need to".toList), litI ("provide".toList), litI ("eligib".toList),
     litI ("documentation".toList), litI ("proof".toList),
     litI ("return".toList), litI ("submit".toList)]) .wb)

/-- `(\*|-|•|\d+\.)` — the bullet/number marker group. -/
def bulletGroup : RE :=
  altList (RE.cls (· = '*'))
    [RE.cls (· = '-'), RE.cls (· = '•'),
     .seq (.plusCls isDigitCh) (RE.cls (· = '.'))]

/-- `^(\*|-|•|\d+\.)\s+` as used by `re.match` in `find_requirements`. -/
def bulletMatchRE : RE := .seq bulletGroup (.plusCls isPySpace)

/-- `^(\*|-|•|\d+\.)\s*` as used by `re.sub` in `find_requirements`. -/
def bulletSubRE : RE := .seq bulletGroup (.starCls isPySpace)

/-- The slash-or-dash separator class of the numeric date pattern. -/
def isDashSlash (c : Char) : Bool := c = '/' || c = '-'

/-- The date pattern of `find_deadlines` (compiled without `re.I`): a
numeric date (1-2 digits, slash-or-dash, 1-2 digits, slash-or-dash, 2-4
digits) or a month-name date (3-9 letters, spaces, 1-2 digits, optional
comma, spaces, 4 digits), wrapped in word boundaries. -/
def dateRE : RE :=
  .seq .wb (.seq
    (.alt
      (.seq (.rep isDigitCh 1 2) (.seq (.cls isDashSlash)
        (.seq (.rep isDigitCh 1 2) (.seq (.cls isDashSlash) (.rep isDigitCh 2 4)))))
      (.seq (.rep isAlphaCh 3 9) (.seq (.plusCls isPySpace)
        (.seq (.rep isDigitCh 1 2) (.seq (.opt (.cls (· = ',')))
          (.seq (.plusCls isPySpace) (.rep isDigitCh 4 4)))))))
    .wb)

/-! ### Date parsing and `find_deadlines` -/

/-- Accumulator scanner for the maximal runs of a character class. -/
def runsOfAux (p : Char → Bool) (acc : List Char) : List Char → List (List Char)
  | [] => if acc = [] then [] else [acc.reverse]
  | c :: rest =>
    if p c then runsOfAux p (c :: acc) rest
    else if acc = [] then runsOfAux p [] rest
    else acc.reverse :: runsOfAux p [] rest

/-- Maximal runs of characters of a class occurring in a string. -/
def runsOf (p : Char → Bool) (s : List Char) : List (List Char) := runsOfAux p [] s

/-- Digits of a numeral string as a number. -/
def digitsToNat (ds : List Char) : Nat :=
  ds.foldl (fun n c => n * 10 + (c.toNat - '0'.toNat)) 0

/-- The month names the external date parser recognises (full names,
3-letter abbreviations, and `sept`), lower-case. -/
def monthTable : List (List Char × Nat) :=
  ([("january", 1), ("jan", 1), ("february", 2), ("feb", 2), ("march", 3),
    ("mar", 3), ("april", 4), ("apr", 4), ("may", 5), ("june", 6),
    ("jun", 6), ("july", 7), ("jul", 7), ("august", 8), ("aug", 8),
    ("september", 9), ("sept", 9), ("sep", 9), ("october", 10),
    ("oct", 10), ("november", 11), ("nov", 11), ("december", 12),
    ("dec", 12)] : List (String × Nat)).map (fun p => (p.1.toList, p.2))

/-- Is this a Gregorian leap year? -/
def isLeap (y : Nat) : Bool := y % 4 = 0 && (y % 100 ≠ 0 || y % 400 = 0)

/-- Days in a month. -/
def daysInMonth (m y : Nat) : Nat :=
  if m = 2 then (if isLeap y then 29 else 28)
  else if m = 4 || m = 6 || m = 9 || m = 11 then 30 else 31

/-- A calendar date encoded so that numeric order is chronological order
(the order `sorted` puts the parsed `datetime`s in). -/
def encodeDate (y m d : Nat) : Nat := y * 10000 + m * 100 + d

/-- A validated date, or `none` (the parser's failure, swallowed by
`find_deadlines`). -/
def mkDate (y m d : Nat) : Option Nat :=
  if 1 ≤ m && m ≤ 12 && 1 ≤ d && d ≤ daysInMonth m y then some (encodeDate y m d)
  else none

/-- Two-digit years are folded into the century window the external
parser uses. -/
def fixYear (y : Nat) : Nat :=
  if 100 ≤ y then y else if y < 50 then 2000 + y else 1900 + y

/-- Modelled from the spec: the external date-parser collaborator
(`dateutil.parser.parse(d, fuzzy=True)`, §6 "Date parser") applied to
the substrings the date pattern can produce.  A month-name hit parses
via the month table; a numeric hit parses month-first, falling back to
day-first when the first field exceeds 12; anything invalid is a
failure, which the caller drops (spec §4.4: "unparsable substrings are
silently dropped"). -/
def parse_date (s : List Char) : Option Nat :=
  let ls := runsOf isAlphaCh s
  let ds := (runsOf isDigitCh s).map digitsToNat
  match ls, ds with
  | [name], [d, y] =>
    match monthTable.find? (fun kv => kv.1 = lowerStr name) with
    | some kv => mkDate y kv.2 d
    | none => none
  | [], [a, b, y0] =>
    let y := fixYear y0
    if a ≤ 12 then mkDate y a b else mkDate y b a
  | _, _ => none

/-- Remove adjacent duplicates; applied after an ascending sort this is
`sorted(set(xs))` of the source. -/
def dedupAdj : List Nat → List Nat
  | [] => []
  | [a] => [a]
  | a :: b :: rest => if a = b then dedupAdj (b :: rest) else a :: dedupAdj (b :: rest)

/-- Ascending stable sort on `Nat`. -/
def sortNat (l : List Nat) : List Nat := isortBy (fun a b => decide (a ≤ b)) l

/-- The month abbreviations of `strftime("%b ...")`. -/
def monthAbbr : List (List Char) :=
  (["Jan", "Feb", "Mar", "Apr", "May", "Jun", "Jul", "Aug", "Sep", "Oct",
    "Nov", "Dec"]).map String.toList

/-- Zero-padded two-digit day of `strftime("%d")`. -/
def pad2 (d : Nat) : List Char :=
  if d < 10 then '0' :: Nat.toDigits 10 d else Nat.toDigits 10 d

/-- `dt.strftime("%b %d, %Y")` on an encoded date. -/
def fmtDate (n : Nat) : List Char :=
  (monthAbbr.getD (n / 100 % 100 - 1) []) ++ ' ' :: pad2 (n % 100) ++
    ',' :: ' ' :: Nat.toDigits 10 (n / 10000)

/-- `find_deadlines` of the source: keyword hit-lines and the
pretty-printed, deduplicated, chronologically sorted parsed dates. -/
def find_deadlines (text : List Char) : List (List Char) × List (List Char) :=
  let lines := ((splitlines text).map pyStrip).filter (· ≠ [])
  let hit_lines := lines.filter (reSearch hitRE)
  let date_hits := reFindall dateRE text
  let parsed_dates := dedupAdj (sortNat (date_hits.filterMap parse_date))
  (hit_lines, parsed_dates.map fmtDate)

/-! ### Requirements, key points, skills -/

/-- The Python `seen`-set de-duplication loop on exact strings, keeping
first occurrences. -/
def pyDedup (seen : List (List Char)) : List (List Char) → List (List Char)
  | [] => []
  | s :: rest =>
    if seen.contains s then pyDedup seen rest else s :: pyDedup (s :: seen) rest

/-- The Python `seen`-set de-duplication loop keyed on the lower-cased
string, keeping first occurrences. -/
def pyDedupLower (seen : List (List Char)) : List (List Char) → List (List Char)
  | [] => []
  | s :: rest =>
    if seen.contains (lowerStr s) then pyDedupLower seen rest
    else s :: pyDedupLower (lowerStr s :: seen) rest

/-- The requirement candidates of `find_requirements`: non-empty stripped
lines that are bullet items or shorter than 220 characters and contain an
obligation keyword, with the leading marker stripped. -/
def reqCandidates (text : List Char) : List (List Char) :=
  (splitlines text).filterMap (fun l =>
    let lc := pyStrip l
    if lc = [] then none
    else if (matchHead bulletMatchRE lc || decide (lc.length < 220)) && reSearch reqKwRE lc
    then some (subHead bulletSubRE lc) else none)

/-- `find_requirements` of the source. -/
def find_requirements (text : List Char) : List (List Char) :=
  (pyDedupLower [] (reqCandidates text)).take 12

/-- The characters `find_key_points` strips from both ends of a line. -/
def kpStripChars : List Char := " -•*\t".toList

/-- The key-point candidates: stripped lines of length between 40 and 220
inclusive that do not end in a colon. -/
def kpCandidates (text : List Char) : List (List Char) :=
  (splitlines text).filterMap (fun l =>
    let l2 := pyStripSet kpStripChars l
    if 40 ≤ l2.length && l2.length ≤ 220 && !(l2.getLast? = some ':') then some l2
    else none)

/-- `find_key_points` of the source. -/
def find_key_points (text : List Char) (top_n : Nat) : List (List Char) :=
  (pyDedupLower [] (kpCandidates text)).take top_n

/-- `\b` on the left of a literal. -/
def wbL (r : RE) : RE := .seq .wb r

/-- `\b` on the right of a literal. -/
def wbR (r : RE) : RE := .seq r .wb

/-- The `[sz]` class under `re.I`. -/
def clsSZ : RE := .cls (fun c => lowerCh c = 's' || lowerCh c = 'z')

/-- `SKILL_DICTIONARY` of the source: case-insensitive patterns paired
with skill labels, in the table's (insertion) order.  Each pattern is a
top-level alternation, so a `\b` written at the start or end of the whole
Python pattern belongs only to the first or last alternative. -/
def SKILL_DICTIONARY : List (RE × List Char) :=
  [(.alt (wbL (.seq (litI ("immuni".toList)) (.seq clsSZ (litI ("ation".toList)))))
     (wbR (litI ("vaccine".toList))), "Health Documentation".toList),
   (.alt (wbL (litI ("consent form".toList))) (wbR (litI ("permission slip".toList))),
     "Consent & Forms".toList),
   (.alt (wbL (litI ("transportation request".toList))) (wbR (litI ("bus route".toList))),
     "Logistics Coordination".toList),
   (altList (wbL (litI ("device return".toList)))
     [litI ("chromebook".toList), wbR (litI ("laptop".toList))],
     "Device Management".toList),
   (.alt (wbL (.seq (litI ("parent".toList))
       (.seq (.cls (fun c => c = '-' || c = ' ')) (litI ("teacher conference".toList)))))
     (wbR (litI ("ptc".toList))), "Scheduling & Coordination".toList),
   (.alt (wbL (litI ("workshop".toList))) (wbR (litI ("training session".toList))),
     "Workshop Participation".toList),
   (wbL (wbR (litI ("application".toList))), "Application Submission".toList),
   (altList (wbL (litI ("deadline".toList)))
     [litI ("submit by".toList), wbR (litI ("due".toList))],
     "Deadline Management".toList),
   (altList (wbL (litI ("rfp".toList)))
     [litI ("proposal".toList), wbR (litI ("brief".toList))], "RFP Review".toList),
   (.alt (wbL (.seq (litI ("requirement".toList)) (.opt (litI ("s".toList)))))
     (wbR (.seq (litI ("eligib".toList))
       (.alt (litI ("ility".toList)) (litI ("le".toList))))),
     "Requirements Compliance".toList),
   (.alt (wbL (litI ("policy".toList))) (wbR (litI ("guideline".toList))),
     "Policy Comprehension".toList),
   (.alt (wbL (litI ("documentation".toList))) (wbR (litI ("records".toList))),
     "Documentation Management".toList),
   (wbL (wbR (litI ("data".toList))), "Data Handling".toList),
   (wbL (wbR (litI ("salesforce".toList))), "Salesforce Literacy".toList),
   (altList (wbL (litI ("ai".toList)))
     [litI ("nlp".toList),
      .seq (litI ("summari".toList)) (.seq clsSZ (.seq (.opt (litI ("e".toList))) .wb))],
     "AI/NLP Literacy".toList)]

/-- The fixed fallback skill set of `extract_skills`. -/
def defaultSkills : List (List Char) :=
  (["Deadline Management", "Documentation Management", "Policy Comprehension"]).map
    String.toList

/-- `text + "\n" + "\n".join(requirements or [])`. -/
def skillPool (text : List Char) (reqs : List (List Char)) : List Char :=
  text ++ '\n' :: List.intercalate ['\n'] reqs

/-- The labels of the dictionary entries whose pattern matches the pool,
in table order (the `found` list of `extract_skills`). -/
def matchedSkills (text : List Char) (reqs : List (List Char)) : List (List Char) :=
  (SKILL_DICTIONARY.filter (fun pr => reSearch pr.1 (skillPool text reqs))).map (fun pr => pr.2)

/-- `extract_skills` of the source. -/
def extract_skills (text : List Char) (reqs : List (List Char)) : List (List Char) :=
  let out := pyDedup [] (matchedSkills text reqs)
  (if out = [] then defaultSkills else out).take 15

/-! ### Next steps and the brief -/

/-- The calendar-reminder step, naming up to three formatted dates. -/
def calStep (dates : List (List Char)) : List Char :=
  ("Add key date(s) to calendar: ".toList) ++
    List.intercalate (", ".toList) (dates.take 3) ++ ['.']

/-- The document-gathering step. -/
def gatherStep : List Char :=
  ("Gather required documents/items listed above and upload 48 hours before the deadline.").toList

/-- The three fixed generic steps of `propose_next_steps`. -/
def genericSteps : List (List Char) :=
  (["Email teacher/admin with any clarifying questions (limit to 3 bullets).",
    "Confirm submission method (portal, email, or printed copy) and save the confirmation.",
    "Schedule a 15-minute review with your child/team to align on what success looks like."]).map
    String.toList

/-- `propose_next_steps` of the source. -/
def propose_next_steps (reqs : List (List Char))
    (deadlines : List (List Char) × List (List Char)) : List (List Char) :=
  let steps :=
    (if deadlines.2 ≠ [] then [calStep deadlines.2] else []) ++
    (if reqs ≠ [] then [gatherStep] else []) ++ genericSteps
  (pyDedup [] steps).take 5

/-- The brief record returned by `make_brief` (the Python dict with its
five fixed keys). -/
structure Brief where
  executiveSummary : List Char
  keyPoints : List (List Char)
  deadlines : List (List Char)
  requirements : List (List Char)
  nextSteps : List (List Char)
deriving DecidableEq

/-- `make_brief` of the source.  Python's `or`-fallback keeps any
non-empty summary string (including the `" "` placeholder, which is
truthy). -/
def make_brief (text : List Char) : Brief :=
  let exec_summary := summarize_text text 5
  let key_points := find_key_points text 6
  let dl := find_deadlines text
  let requirements := find_requirements text
  { executiveSummary :=
      if exec_summary = [] then ("Not enough content to summarize.").toList
      else exec_summary,
    keyPoints := key_points,
    deadlines := if dl.2 ≠ [] then dl.2 else dl.1.take 3,
    requirements := requirements,
    nextSteps := propose_next_steps requirements dl }

/-- `clean_text` of the source, step 1-3: null bytes to spaces, strip. -/
def denull (txt : List Char) : List Char :=
  txt.map (fun c => if c = '\x00' then ' ' else c)

/-- `re.sub(r"\n{3,}", "\n\n", ...)`: collapse runs of three or more
newlines to exactly two.  The accumulator counts the pending newline
run. -/
def collapseNlAux (n : Nat) : List Char → List Char
  | [] => if 3 ≤ n then ['\n', '\n'] else List.replicate n '\n'
  | c :: rest =>
    if c = '\n' then collapseNlAux (n + 1) rest
    else
      (if 3 ≤ n then ['\n', '\n'] else List.replicate n '\n') ++
        c :: collapseNlAux 0 rest

/-- Collapse runs of three or more newlines to exactly two. -/
def collapseNl (s : List Char) : List Char := collapseNlAux 0 s

/-- Space or tab (the class of `re.sub(r"[ \t]{2,}", " ", ...)`). -/
def isSpTab (c : Char) : Bool := c = ' ' || c = '\t'

/-- Collapse runs of two or more spaces/tabs to a single space.  The
accumulator carries the pending space/tab run (reversed). -/
def collapseSpAux (run : List Char) : List Char → List Char
  | [] => if 2 ≤ run.length then [' '] else run.reverse
  | c :: rest =>
    if isSpTab c then collapseSpAux (c :: run) rest
    else
      (if 2 ≤ run.length then [' '] else run.reverse) ++ c :: collapseSpAux [] rest

/-- Collapse runs of two or more spaces/tabs to a single space. -/
def collapseSp (s : List Char) : List Char := collapseSpAux [] s

/-- `clean_text` of the source (the normalizer of spec §4.1). -/
def clean_text (txt : List Char) : List Char :=
  collapseSp (collapseNl (pyStrip (denull txt)))

/-- Modelled from the spec: the long-document guard of §5 is not present
in `src/streamlit_app.py` (whose `make_brief` summarizes the full text in
one call); this definition follows the spec's words — "chunking text over
a fixed character threshold (8,000)" — for comparison with the code. -/
def chunk8000 (text : List Char) : List (List Char) :=
  if text = [] then []
  else text.take 8000 :: chunk8000 (text.drop 8000)
termination_by text.length
decreasing_by
  rename_i h
  have : text.length ≠ 0 := fun hl => h (List.eq_nil_of_length_eq_zero hl)
  simp; omega

/-- Modelled from the spec: "summarizing each chunk independently before
a second summarization pass over the concatenated chunk-summaries" (§5),
the chunk summaries being concatenated with single spaces. -/
def chunked_summarize (text : List Char) (k : Nat) : List Char :=
  summarize_text (joinSpace ((chunk8000 text).map (fun c => summarize_text c k))) k

/-- A 7,998-character filler word used to build a document over the
8,000-character threshold. -/
def fillerQ : List Char := List.replicate 7998 'q'

/-- A concrete 8,008-character document: one long word, two spaces, and
two short words, with no sentence terminator. -/
def longText : List Char := fillerQ ++ ("  hi world").toList

/-- What the spec's chunked two-pass procedure produces on `longText`
(8,007 characters: the 8,000-character cut falls inside the two-space
run, which the first-pass summaries strip). -/
def combinedText : List Char := fillerQ ++ ' ' :: ("hi world").toList

/-- The strict "score strictly greater, or equal score and earlier
index" order in which a stable descending sort by score must place
elements whose original order is by index. -/
def Rlex (a b : Nat × List Char × ℚ) : Prop :=
  b.2.2 < a.2.2 ∨ (a.2.2 = b.2.2 ∧ a.1 < b.1)

/-! ## Lemmas: stable insertion sort -/

theorem insSorted_perm (le : α → α → Bool) (x : α) (l : List α) :
    List.Perm (insSorted le x l) (x :: l) := by
  induction l with
  | nil => simp [insSorted]
  | cons y ys ih =>
    simp only [insSorted]
    split
    · exact List.Perm.refl _
    · exact ((ih.cons y).trans (List.Perm.swap x y ys))

theorem isortBy_perm (le : α → α → Bool) (l : List α) : List.Perm (isortBy le l) l := by
  induction l with
  | nil => simp [isortBy]
  | cons x xs ih => exact (insSorted_perm le x (isortBy le xs)).trans (ih.cons x)

theorem mem_insSorted {le : α → α → Bool} {x a : α} {l : List α} :
    a ∈ insSorted le x l ↔ a = x ∨ a ∈ l := by
  rw [(insSorted_perm le x l).mem_iff]
  simp

theorem insSorted_pairwise_le {le : α → α → Bool}
    (htot : ∀ a b, le a b = true ∨ le b a = true)
    (htrans : ∀ a b c, le a b = true → le b c = true → le a c = true)
    (x : α) (l : List α) (hl : l.Pairwise (fun a b => le a b = true)) :
    (insSorted le x l).Pairwise (fun a b => le a b = true) := by
  induction l with
  | nil => simp [insSorted]
  | cons y ys ih =>
    simp only [insSorted]
    rcases List.pairwise_cons.mp hl with ⟨hy, hys⟩
    split
    · rename_i hxy
      refine List.pairwise_cons.mpr ⟨?_, hl⟩
      intro z hz
      rcases List.mem_cons.mp hz with rfl | hz
      · exact hxy
      · exact htrans x y z hxy (hy z hz)
    · rename_i hxy
      have hyx : le y x = true := by
        rcases htot x y with h | h
        · exact absurd h hxy
        · exact h
      refine List.pairwise_cons.mpr ⟨?_, ih hys⟩
      intro z hz
      rcases mem_insSorted.mp hz with rfl | hz
      · exact hyx
      · exact hy z hz

theorem isortBy_pairwise_le {le : α → α → Bool}
    (htot : ∀ a b, le a b = true ∨ le b a = true)
    (htrans : ∀ a b c, le a b = true → le b c = true → le a c = true)
    (l : List α) : (isortBy le l).Pairwise (fun a b => le a b = true) := by
  induction l with
  | nil => simp [isortBy]
  | cons x xs ih => exact insSorted_pairwise_le htot htrans x _ ih

theorem Rlex_asymm {a b : Nat × List Char × ℚ} (h : Rlex a b) : ¬ Rlex b a := by
  rcases h with h | ⟨he, hi⟩ <;> rintro (h' | ⟨he', hi'⟩)
  · exact lt_irrefl _ (h.trans h')
  · exact absurd he' h.ne
  · exact absurd h' (not_lt.mpr he.ge)
  · exact absurd hi' (not_lt.mpr hi.le)

theorem insSorted_pairwise_lex (x : Nat × List Char × ℚ) (l : List (Nat × List Char × ℚ))
    (hl : l.Pairwise Rlex) (hidx : ∀ y ∈ l, x.1 < y.1) :
    (insSorted leScore x l).Pairwise Rlex := by
  induction l with
  | nil => simp [insSorted]
  | cons y ys ih =>
    simp only [insSorted]
    rcases List.pairwise_cons.mp hl with ⟨hy, hys⟩
    split
    · rename_i hxy
      have hxy' : y.2.2 ≤ x.2.2 := of_decide_eq_true hxy
      have hRxy : Rlex x y := by
        rcases lt_or_eq_of_le hxy' with h | h
        · exact Or.inl h
        · exact Or.inr ⟨h.symm, hidx y (List.mem_cons_self y ys)⟩
      refine List.pairwise_cons.mpr ⟨?_, hl⟩
      intro z hz
      rcases List.mem_cons.mp hz with rfl | hz
      · exact hRxy
      · rcases hy z hz with h | ⟨he, _⟩
        · rcases hRxy with h' | ⟨he', _⟩
          · exact Or.inl (h.trans h')
          · exact Or.inl (he' ▸ h)
        · rcases hRxy with h' | ⟨he', _⟩
          · exact Or.inl (he ▸ h')
          · exact Or.inr ⟨he'.trans he, hidx z (List.mem_cons_of_mem y hz)⟩
    · rename_i hxy
      have hxy' : ¬ y.2.2 ≤ x.2.2 := by
        intro h
        exact hxy (decide_eq_true h)
      have hyx : Rlex y x := Or.inl (lt_of_not_le hxy')
      refine List.pairwise_cons.mpr ⟨?_, ih hys (fun z hz => hidx z (List.mem_cons_of_mem y hz))⟩
      intro z hz
      rcases mem_insSorted.mp hz with rfl | hz
      · exact hyx
      · exact hy z hz

theorem isortBy_leScore_pairwise_lex (l : List (Nat × List Char × ℚ))
    (h : l.Pairwise (fun a b => a.1 < b.1)) :
    (isortBy leScore l).Pairwise Rlex := by
  induction l with
  | nil => simp [isortBy]
  | cons x xs ih =>
    rcases List.pairwise_cons.mp h with ⟨hx, hxs⟩
    refine insSorted_pairwise_lex x _ (ih hxs) ?_
    intro y hy
    exact hx y ((isortBy_perm leScore xs).mem_iff.mp hy)

/-- In a `Pairwise R` list with `R` asymmetric, anything `R`-before a
member of the length-`k` prefix is itself in that prefix. -/
theorem mem_take_of_rel {R : α → α → Prop} (hasym : ∀ a b, R a b → ¬ R b a) :
    ∀ (l : List α) (k : Nat) (x y : α), l.Pairwise R → R x y → x ∈ l →
      y ∈ l.take k → x ∈ l.take k := by
  intro l
  induction l with
  | nil => intro k x y _ _ hx; simp at hx
  | cons z zs ih =>
    intro k x y hp hr hx hy
    match k with
    | 0 => simp at hy
    | k + 1 =>
      simp only [List.take_succ_cons] at hy ⊢
      rcases List.pairwise_cons.mp hp with ⟨hz, hzs⟩
      rcases List.mem_cons.mp hx with hxz | hx2
      · rw [hxz]; exact List.mem_cons_self _ _
      · rcases List.mem_cons.mp hy with hyz | hy2
        · exact absurd (hyz ▸ hr) (hasym _ _ (hz x hx2))
        · exact List.mem_cons_of_mem z (ih k x y hzs hr hx2 hy2)

/-! ## Lemmas: the summarizer -/

theorem scoredAux_idx_ge (tbl : List (List Char × ℚ)) :
    ∀ (sents : List (List Char)) (i : Nat), ∀ x ∈ scoredAux tbl i sents, i ≤ x.1 := by
  intro sents
  induction sents with
  | nil => intro i x hx; simp [scoredAux] at hx
  | cons s rest ih =>
    intro i x hx
    simp only [scoredAux] at hx
    split at hx
    · exact le_trans (Nat.le_succ i) (ih (i + 1) x hx)
    · rcases List.mem_cons.mp hx with hxe | hx2
      · rw [hxe]
      · exact le_trans (Nat.le_succ i) (ih (i + 1) x hx2)

theorem scoredAux_pairwise (tbl : List (List Char × ℚ)) :
    ∀ (sents : List (List Char)) (i : Nat),
      (scoredAux tbl i sents).Pairwise (fun a b => a.1 < b.1) := by
  intro sents
  induction sents with
  | nil => intro i; simp [scoredAux]
  | cons s rest ih =>
    intro i
    simp only [scoredAux]
    split
    · exact ih (i + 1)
    · refine List.pairwise_cons.mpr ⟨?_, ih (i + 1)⟩
      intro y hy
      exact lt_of_lt_of_le (Nat.lt_succ_self i) (scoredAux_idx_ge tbl rest (i + 1) y hy)

theorem scoredOf_pairwise (text : List Char) :
    (scoredOf text).Pairwise (fun a b => a.1 < b.1) :=
  scoredAux_pairwise _ _ 0

theorem summarize_selected_pairwise (text : List Char) (k : Nat) :
    (summarize_selected text k).Pairwise (fun a b => a.1 < b.1) := by
  have hne : (summarize_selected text k).Pairwise (fun a b => a.1 ≠ b.1) := by
    have h0 : (scoredOf text).Pairwise (fun a b => a.1 ≠ b.1) :=
      (scoredOf_pairwise text).imp (fun h => Nat.ne_of_lt h)
    have h1 : (isortBy leScore (scoredOf text)).Pairwise (fun a b => a.1 ≠ b.1) :=
      ((isortBy_perm leScore (scoredOf text)).pairwise_iff (fun h => h.symm)).mpr h0
    have h2 : (topOf text k).Pairwise (fun a b => a.1 ≠ b.1) :=
      h1.sublist (List.take_sublist k _)
    exact ((isortBy_perm leIdx (topOf text k)).pairwise_iff (fun h => h.symm)).mpr h2
  have htot : ∀ a b : Nat × List Char × ℚ, leIdx a b = true ∨ leIdx b a = true := by
    intro a b
    rcases Nat.le_total a.1 b.1 with h | h
    · exact Or.inl (decide_eq_true h)
    · exact Or.inr (decide_eq_true h)
  have htrans : ∀ a b c : Nat × List Char × ℚ,
      leIdx a b = true → leIdx b c = true → leIdx a c = true :=
    fun a b c hab hbc =>
      decide_eq_true (le_trans (of_decide_eq_true hab) (of_decide_eq_true hbc))
  have hle : (summarize_selected text k).Pairwise (fun a b => leIdx a b = true) :=
    isortBy_pairwise_le htot htrans (topOf text k)
  exact (hle.and hne).imp (fun h => lt_of_le_of_ne (of_decide_eq_true h.1) h.2)

theorem topOf_stable (text : List Char) (k : Nat) :
    ∀ x y, x ∈ scoredOf text → y ∈ scoredOf text → x.1 < y.1 → x.2.2 = y.2.2 →
      y ∈ topOf text k → x ∈ topOf text k := by
  intro x y hx hy hlt heq hyk
  have hlex : (isortBy leScore (scoredOf text)).Pairwise Rlex :=
    isortBy_leScore_pairwise_lex _ (scoredOf_pairwise text)
  have hr : Rlex x y := Or.inr ⟨heq, hlt⟩
  have hx' : x ∈ isortBy leScore (scoredOf text) :=
    (isortBy_perm leScore _).mem_iff.mpr hx
  exact mem_take_of_rel (fun a b h => Rlex_asymm h) _ k x y hlex hr hx' hyk

theorem joinSpace_single (s : List Char) : joinSpace [s] = s := by
  simp [joinSpace, List.intercalate, List.intersperse]

theorem joinSpace_pair (a b : List Char) : joinSpace [a, b] = a ++ ' ' :: b := by
  simp [joinSpace, List.intercalate, List.intersperse]

/-- If a text has exactly one sentence, that sentence has tokens, and the
frequency table is non-empty, the summary is that sentence verbatim. -/
theorem summarize_single (t u : List Char) (k : Nat) (hk : 1 ≤ k)
    (hs : sentence_split t = [u]) (hw : word_tokens t ≠ [])
    (hf : buildFreq (word_tokens t) ≠ []) (hwu : word_tokens u ≠ [])
    (hstrip : pyStrip u = u) : summarize_text t k = u := by
  obtain ⟨k', rfl⟩ : ∃ k', k = k' + 1 := ⟨k - 1, by omega⟩
  have hscored : scoredOf t = [(0, u, sentenceScore (freqTable (word_tokens t)) (word_tokens u))] := by
    rw [scoredOf, hs]
    simp only [scoredAux, if_neg hwu]
  rw [summarize_text]
  simp only [hs, hscored]
  rw [if_neg (List.cons_ne_nil u []), if_neg hw, if_neg hf]
  simp only [summarize_selected, topOf, hscored, isortBy, insSorted,
    List.take_succ_cons, List.take_nil, List.map_cons, List.map_nil]
  rw [joinSpace_single, hstrip]

/-- If every token of the text is a stop-word or has length at most 2,
the frequency table is empty. -/
theorem buildFreqAux_all_skip :
    ∀ (ws : List (List Char)) (acc : List (List Char × Nat)),
      (∀ w ∈ ws, (STOPWORDS.contains w || decide (w.length ≤ 2)) = true) →
      buildFreqAux acc ws = acc := by
  intro ws
  induction ws with
  | nil => intro acc _; rfl
  | cons w rest ih =>
    intro acc h
    rw [buildFreqAux, if_pos (h w (List.mem_cons_self w rest))]
    exact ih acc (fun x hx => h x (List.mem_cons_of_mem w hx))

/-- The stop-word-only fallback of `summarize_text`. -/
theorem summarize_fallback (t : List Char) (k : Nat)
    (hs : sentence_split t ≠ []) (hw : word_tokens t ≠ [])
    (hall : ∀ w ∈ word_tokens t, w ∈ STOPWORDS ∨ w.length ≤ 2) :
    summarize_text t k = joinSpace ((sentence_split t).take k) := by
  have hfreq : buildFreq (word_tokens t) = [] := by
    refine buildFreqAux_all_skip _ _ ?_
    intro w hwmem
    simpa using hall w hwmem
  rw [summarize_text]
  simp [if_neg hs, if_neg hw, hfreq]

/-- The Executive Summary field is the one-call full-text summary
whenever that summary is non-empty. -/
theorem make_brief_exec (text : List Char) (h : summarize_text text 5 ≠ []) :
    (make_brief text).executiveSummary = summarize_text text 5 := by
  rw [make_brief]
  simp only [if_neg h]

/-! ## Lemmas: the concrete long document -/

theorem dropWhile_eq_self_of_head {p : Char → Bool} {l : List Char}
    (h : ∀ a, l.head? = some a → p a = false) : l.dropWhile p = l := by
  cases l with
  | nil => rfl
  | cons a t =>
    rw [List.dropWhile_cons, if_neg]
    simp [h a rfl]

theorem dropWhile_eq_self_of_headCh {p : Char → Bool} {l : List Char} (a : Char)
    (ha : l.head? = some a) (hpa : p a = false) : l.dropWhile p = l :=
  dropWhile_eq_self_of_head (fun b hb => by
    rw [ha] at hb
    injection hb with hb'
    rw [← hb']
    exact hpa)

theorem pyStrip_eq_self {l : List Char}
    (h1 : ∀ a, l.head? = some a → isPySpace a = false)
    (h2 : ∀ a, l.getLast? = some a → isPySpace a = false) : pyStrip l = l := by
  rw [pyStrip, dropWhile_eq_self_of_head h1,
    dropWhile_eq_self_of_head (fun a ha => h2 a (by rwa [List.head?_reverse] at ha)),
    List.reverse_reverse]

theorem ssplitAux_no_term :
    ∀ (u acc : List Char), (∀ c ∈ u, isTermCh c = false) →
      ssplitAux 0 acc u = [acc.reverse ++ u] := by
  intro u
  induction u with
  | nil => intro acc _; simp [ssplitAux]
  | cons c rest ih =>
    intro acc h
    have hc := h c (List.mem_cons_self c rest)
    rw [ssplitAux]
    simp only [hc]
    rw [if_neg (by norm_num), if_neg (by simp)]
    rw [if_neg (by simp [hc])]
    rw [ih (c :: acc) (fun x hx => h x (List.mem_cons_of_mem c hx))]
    simp

theorem sentence_split_single (t u : List Char)
    (ht : pyStrip t = u) (hnoterm : ∀ c ∈ u, isTermCh c = false)
    (hu : u ≠ []) (hus : pyStrip u = u) :
    sentence_split t = [u] := by
  rw [sentence_split, ht, ssplitAux_no_term u [] hnoterm]
  simp [hus, hu]

theorem replicate_q_ne_nil (n : Nat) (h : n ≠ 0) :
    (List.replicate n 'q' : List Char) ≠ [] := by
  intro he
  have := congrArg List.length he
  rw [List.length_replicate] at this
  exact h (by simpa using this)

theorem fillerQ_len : fillerQ.length = 7998 := by
  rw [fillerQ, List.length_replicate]

theorem fillerQ_cons : fillerQ = 'q' :: List.replicate 7997 'q' := by
  rw [fillerQ, show (7998 : Nat) = 7997 + 1 by norm_num, List.replicate_succ]

theorem fillerQ_ne_nil : fillerQ ≠ [] := by
  rw [fillerQ_cons]; exact List.cons_ne_nil _ _

theorem fillerQ_reverse : fillerQ.reverse = fillerQ := by
  rw [fillerQ, List.reverse_replicate]

theorem fillerQ_noterm : ∀ c ∈ fillerQ, isTermCh c = false := by
  intro c hc
  rw [fillerQ] at hc
  rw [List.eq_of_mem_replicate hc]; rfl

theorem fillerQ_nospace : ∀ c ∈ fillerQ, isPySpace c = false := by
  intro c hc
  rw [fillerQ] at hc
  rw [List.eq_of_mem_replicate hc]; rfl

theorem fillerQ_strip : pyStrip fillerQ = fillerQ := by
  refine pyStrip_eq_self (fun a ha => ?_) (fun a ha => ?_)
  · exact fillerQ_nospace a (List.mem_of_mem_head? ha)
  · exact fillerQ_nospace a (List.mem_of_mem_getLast? ha)

theorem longText_strip : pyStrip longText = longText := by
  refine pyStrip_eq_self (fun a ha => ?_) (fun a ha => ?_)
  · rw [longText, fillerQ_cons, List.cons_append, List.head?_cons] at ha
    injection ha with ha'
    rw [← ha']; rfl
  · rw [longText, List.getLast?_append,
      show (("  hi world").toList.getLast?.or fillerQ.getLast?) = some 'd' from rfl] at ha
    injection ha with ha'
    rw [← ha']; rfl

theorem longText_noterm : ∀ c ∈ longText, isTermCh c = false := by
  intro c hc
  rw [longText] at hc
  rcases List.mem_append.mp hc with h | h
  · exact fillerQ_noterm c h
  · exact (by decide : ∀ c ∈ ("  hi world").toList, isTermCh c = false) c h

theorem combinedText_noterm : ∀ c ∈ combinedText, isTermCh c = false := by
  intro c hc
  rw [combinedText] at hc
  rcases List.mem_append.mp hc with h | h
  · exact fillerQ_noterm c h
  · exact (by decide : ∀ c ∈ ' ' :: ("hi world").toList, isTermCh c = false) c h

theorem combinedText_strip : pyStrip combinedText = combinedText := by
  refine pyStrip_eq_self (fun a ha => ?_) (fun a ha => ?_)
  · rw [combinedText, fillerQ_cons, List.cons_append, List.head?_cons] at ha
    injection ha with ha'
    rw [← ha']; rfl
  · rw [combinedText, List.getLast?_append,
      show ((' ' :: ("hi world").toList).getLast?.or fillerQ.getLast?) = some 'd' from rfl] at ha
    injection ha with ha'
    rw [← ha']; rfl

theorem wordTokensAux_q (n : Nat) :
    ∀ (acc rest : List Char),
      wordTokensAux acc (List.replicate n 'q' ++ rest) =
        wordTokensAux (List.replicate n 'q' ++ acc) rest := by
  induction n with
  | zero => intro acc rest; simp
  | succ m ih =>
    intro acc rest
    rw [List.replicate_succ, List.cons_append, wordTokensAux]
    rw [if_pos (by rfl)]
    rw [show lowerCh 'q' = 'q' from rfl]
    rw [ih ('q' :: acc) rest]
    rw [show List.replicate m 'q' ++ 'q' :: acc = 'q' :: (List.replicate m 'q' ++ acc) by
      rw [show ('q' :: (List.replicate m 'q' ++ acc) : List Char) =
            ('q' :: List.replicate m 'q') ++ acc from rfl,
          ← List.replicate_succ, List.replicate_succ', List.append_assoc,
          List.singleton_append]]
    rfl

theorem wordTokensAux_emit (acc : List Char) (c : Char) (r : List Char)
    (hc : isTokCh c = false) (ha : acc ≠ []) :
    wordTokensAux acc (c :: r) = acc.reverse :: wordTokensAux [] r := by
  rw [wordTokensAux]
  simp [hc, ha]

theorem word_tokens_fillerQ : word_tokens fillerQ = [fillerQ] := by
  rw [word_tokens]
  conv_lhs => rw [show fillerQ = List.replicate 7998 'q' ++ [] by rw [fillerQ, List.append_nil]]
  rw [wordTokensAux_q, List.append_nil, wordTokensAux]
  rw [if_neg (replicate_q_ne_nil 7998 (by norm_num))]
  rw [show (List.replicate 7998 'q').reverse = fillerQ by rw [List.reverse_replicate, fillerQ]]

theorem word_tokens_longText :
    word_tokens longText = [fillerQ, ("hi").toList, ("world").toList] := by
  rw [word_tokens, longText, fillerQ, wordTokensAux_q, List.append_nil]
  rw [show ("  hi world").toList = ' ' :: (" hi world").toList from rfl]
  rw [wordTokensAux_emit _ _ _ (by rfl) (replicate_q_ne_nil 7998 (by norm_num)),
    List.reverse_replicate]
  rw [show wordTokensAux [] ((" hi world").toList) = [("hi").toList, ("world").toList]
    from by decide]

theorem word_tokens_chunk1 : word_tokens (fillerQ ++ [' ', ' ']) = [fillerQ] := by
  rw [word_tokens, fillerQ, wordTokensAux_q, List.append_nil]
  rw [wordTokensAux_emit _ _ _ (by rfl) (replicate_q_ne_nil 7998 (by norm_num)),
    List.reverse_replicate]
  rw [show wordTokensAux [] [' '] = [] from by decide]

theorem word_tokens_combined :
    word_tokens combinedText = [fillerQ, ("hi").toList, ("world").toList] := by
  rw [word_tokens, combinedText, fillerQ, wordTokensAux_q, List.append_nil]
  rw [wordTokensAux_emit _ _ _ (by rfl) (replicate_q_ne_nil 7998 (by norm_num)),
    List.reverse_replicate]
  rw [show wordTokensAux [] (("hi world").toList) = [("hi").toList, ("world").toList]
    from by decide]

set_option maxRecDepth 4000 in
theorem stopword_len : ∀ w ∈ STOPWORDS, w.length ≤ 10 := by decide

theorem fillerQ_not_mem_stop : fillerQ ∉ STOPWORDS := by
  intro h
  have := stopword_len _ h
  rw [fillerQ_len] at this
  omega

theorem bumpTok_ne_nil (w : List Char) (l : List (List Char × Nat)) :
    bumpTok w l ≠ [] := by
  cases l with
  | nil => simp [bumpTok]
  | cons kv rest =>
    rcases kv with ⟨k, n⟩
    rw [bumpTok]
    split <;> simp

theorem buildFreqAux_ne_nil :
    ∀ (ws : List (List Char)) (acc : List (List Char × Nat)),
      acc ≠ [] → buildFreqAux acc ws ≠ [] := by
  intro ws
  induction ws with
  | nil => intro acc h; exact h
  | cons w rest ih =>
    intro acc h
    rw [buildFreqAux]
    split
    · exact ih acc h
    · exact ih (bumpTok w acc) (bumpTok_ne_nil w acc)

theorem buildFreq_fillerQ_cons (ws : List (List Char)) :
    buildFreq (fillerQ :: ws) ≠ [] := by
  rw [buildFreq, buildFreqAux]
  rw [if_neg (by simp [fillerQ_len]; exact fillerQ_not_mem_stop)]
  exact buildFreqAux_ne_nil ws _ (bumpTok_ne_nil _ _)

theorem summarize_longText : summarize_text longText 5 = longText := by
  refine summarize_single longText longText 5 (by norm_num) ?_ ?_ ?_ ?_ longText_strip
  · exact sentence_split_single _ _ longText_strip longText_noterm
      (by rw [longText]; simp [fillerQ_ne_nil]) longText_strip
  · rw [word_tokens_longText]; simp
  · rw [word_tokens_longText]; exact buildFreq_fillerQ_cons _
  · rw [word_tokens_longText]; simp

theorem fillerQ_head : fillerQ.head? = some 'q' := by
  rw [fillerQ_cons, List.head?_cons]

theorem pyStrip_chunk1 : pyStrip (fillerQ ++ [' ', ' ']) = fillerQ := by
  have h1 : List.dropWhile isPySpace (fillerQ ++ [' ', ' ']) = fillerQ ++ [' ', ' '] :=
    dropWhile_eq_self_of_headCh 'q'
      (by rw [fillerQ_cons, List.cons_append, List.head?_cons]) rfl
  have h2 : (fillerQ ++ [' ', ' ']).reverse = ' ' :: ' ' :: fillerQ := by
    rw [List.reverse_append, fillerQ_reverse]; rfl
  have h3 : List.dropWhile isPySpace (' ' :: ' ' :: fillerQ) = fillerQ := by
    rw [List.dropWhile_cons, if_pos (show isPySpace ' ' = true from rfl),
        List.dropWhile_cons, if_pos (show isPySpace ' ' = true from rfl)]
    exact dropWhile_eq_self_of_headCh 'q' fillerQ_head rfl
  rw [pyStrip, h1, h2, h3, fillerQ_reverse]

theorem summarize_chunk1 : summarize_text (fillerQ ++ [' ', ' ']) 5 = fillerQ := by
  refine summarize_single _ _ 5 (by norm_num) ?_ ?_ ?_ ?_ fillerQ_strip
  · exact sentence_split_single _ _ pyStrip_chunk1 fillerQ_noterm fillerQ_ne_nil fillerQ_strip
  · rw [word_tokens_chunk1]; simp
  · rw [word_tokens_chunk1]; exact buildFreq_fillerQ_cons _
  · rw [word_tokens_fillerQ]; simp

theorem summarize_combined : summarize_text combinedText 5 = combinedText := by
  refine summarize_single _ _ 5 (by norm_num) ?_ ?_ ?_ ?_ combinedText_strip
  · exact sentence_split_single _ _ combinedText_strip combinedText_noterm
      (by rw [combinedText]; simp [fillerQ_ne_nil]) combinedText_strip
  · rw [word_tokens_combined]; simp
  · rw [word_tokens_combined]; exact buildFreq_fillerQ_cons _
  · rw [word_tokens_combined]; simp

theorem longText_take : longText.take 8000 = fillerQ ++ [' ', ' '] := by
  rw [longText, List.take_append_eq_append_take, fillerQ_len,
    List.take_of_length_le (by rw [fillerQ_len]; norm_num)]
  norm_num

theorem longText_drop : longText.drop 8000 = ("hi world").toList := by
  rw [longText, List.drop_append_eq_append_drop, fillerQ_len,
    List.drop_eq_nil_of_le (by rw [fillerQ_len]; norm_num)]
  norm_num

theorem longText_ne_nil : longText ≠ [] := by
  rw [longText]; simp [fillerQ_ne_nil]

theorem chunk8000_longText :
    chunk8000 longText = [fillerQ ++ [' ', ' '], ("hi world").toList] := by
  rw [chunk8000, if_neg longText_ne_nil, longText_take, longText_drop]
  rw [chunk8000, if_neg (by decide)]
  rw [List.take_of_length_le (by decide), List.drop_eq_nil_of_le (by decide)]
  rw [chunk8000, if_pos rfl]

theorem chunked_summarize_longText :
    chunked_summarize longText 5 = combinedText := by
  rw [chunked_summarize, chunk8000_longText, List.map_cons, List.map_cons, List.map_nil]
  rw [summarize_chunk1,
    show summarize_text (("hi world").toList) 5 = ("hi world").toList from by decide]
  rw [joinSpace_pair]
  exact summarize_combined

theorem longText_len : longText.length = 8008 := by
  rw [longText, List.length_append, fillerQ_len]
  norm_num

theorem combinedText_len : combinedText.length = 8007 := by
  rw [combinedText, List.length_append, fillerQ_len]
  norm_num

theorem longText_ne_combined : longText ≠ combinedText := by
  intro h
  have := congrArg List.length h
  rw [longText_len, combinedText_len] at this
  omega

/-! ## Lemmas: de-duplication loops and next steps -/

theorem pyDedup_sublist (seen : List (List Char)) :
    ∀ l, (pyDedup seen l).Sublist l := by
  intro l
  induction l generalizing seen with
  | nil => simp [pyDedup]
  | cons s rest ih =>
    rw [pyDedup]
    split
    · exact (ih seen).trans (List.sublist_cons_self s rest)
    · exact (ih (s :: seen)).cons₂ s

theorem pyDedup_eq_self (seen : List (List Char)) :
    ∀ l, (∀ x ∈ l, seen.contains x = false) → l.Pairwise (· ≠ ·) →
      pyDedup seen l = l := by
  intro l
  induction l generalizing seen with
  | nil => intro _ _; rfl
  | cons s rest ih =>
    intro h1 hp
    rw [pyDedup, if_neg (fun hc => by
      rw [h1 s (List.mem_cons_self s rest)] at hc
      exact Bool.false_ne_true hc)]
    rcases List.pairwise_cons.mp hp with ⟨hs, hrest⟩
    refine congrArg (s :: ·) (ih (s :: seen) (fun x hx => ?_) hrest)
    rw [List.contains_cons]
    have h2 : (x == s) = false := by
      simp only [beq_eq_false_iff_ne]
      exact fun he => (hs x hx) he.symm
    rw [h2, h1 x (List.mem_cons_of_mem s hx)]
    rfl

theorem pyDedupLower_sublist (seen : List (List Char)) :
    ∀ l, (pyDedupLower seen l).Sublist l := by
  intro l
  induction l generalizing seen with
  | nil => simp [pyDedupLower]
  | cons s rest ih =>
    rw [pyDedupLower]
    split
    · exact (ih seen).trans (List.sublist_cons_self s rest)
    · exact (ih (lowerStr s :: seen)).cons₂ s

theorem pyDedupLower_seen (seen : List (List Char)) :
    ∀ l, ∀ x ∈ pyDedupLower seen l, seen.contains (lowerStr x) = false := by
  intro l
  induction l generalizing seen with
  | nil => intro x hx; simp [pyDedupLower] at hx
  | cons s rest ih =>
    intro x hx
    rw [pyDedupLower] at hx
    split at hx
    · exact ih seen x hx
    · rcases List.mem_cons.mp hx with hxe | hx2
      · rename_i hns
        rw [hxe]
        exact Bool.eq_false_iff.mpr hns
      · have h2 := ih (lowerStr s :: seen) x hx2
        rw [List.contains_cons] at h2
        exact (Bool.or_eq_false_iff.mp h2).2

theorem pyDedupLower_pairwise (seen : List (List Char)) :
    ∀ l, (pyDedupLower seen l).Pairwise (fun a b => lowerStr a ≠ lowerStr b) := by
  intro l
  induction l generalizing seen with
  | nil => simp [pyDedupLower]
  | cons s rest ih =>
    rw [pyDedupLower]
    split
    · exact ih seen
    · refine List.pairwise_cons.mpr ⟨?_, ih (lowerStr s :: seen)⟩
      intro y hy
      have h2 := pyDedupLower_seen (lowerStr s :: seen) rest y hy
      rw [List.contains_cons] at h2
      have h3 := (Bool.or_eq_false_iff.mp h2).1
      simp only [beq_eq_false_iff_ne] at h3
      exact fun he => h3 he.symm

theorem genericSteps_pairwise : genericSteps.Pairwise (· ≠ ·) := by
  rw [genericSteps]
  decide

theorem head_ne_of_ne {a b : Option Char} {l m : List Char}
    (hl : l.head? = a) (hm : m.head? = b) (hab : a ≠ b) : l ≠ m := by
  intro h
  rw [h, hm] at hl
  exact hab hl.symm

theorem calStep_headCh (d : List (List Char)) : (calStep d).head? = some 'A' := by
  rw [calStep,
    show ("Add key date(s) to calendar: ").toList =
      'A' :: ("dd key date(s) to calendar: ").toList from rfl,
    List.cons_append, List.cons_append, List.head?_cons]

theorem calStep_ne_gather (d : List (List Char)) : calStep d ≠ gatherStep :=
  head_ne_of_ne (calStep_headCh d) (show gatherStep.head? = some 'G' from rfl) (by decide)

theorem calStep_ne_generic (d : List (List Char)) :
    ∀ g ∈ genericSteps, calStep d ≠ g := by
  intro g hg
  rw [genericSteps] at hg
  rcases List.mem_cons.mp hg with h | hg
  · exact h ▸ head_ne_of_ne (calStep_headCh d) (by rfl) (by decide)
  rcases List.mem_cons.mp hg with h | hg
  · exact h ▸ head_ne_of_ne (calStep_headCh d) (by rfl) (by decide)
  rcases List.mem_cons.mp hg with h | hg
  · exact h ▸ head_ne_of_ne (calStep_headCh d) (by rfl) (by decide)
  · simp at hg

theorem gather_ne_generic : ∀ g ∈ genericSteps, gatherStep ≠ g := by
  decide

/-- The de-duplication inside `propose_next_steps` never removes
anything: the five possible steps are pairwise distinct. -/
theorem stepsList_pairwise (reqs : List (List Char))
    (dls : List (List Char) × List (List Char)) :
    ((if dls.2 ≠ [] then [calStep dls.2] else []) ++
     (if reqs ≠ [] then [gatherStep] else []) ++ genericSteps).Pairwise (· ≠ ·) := by
  split <;> split <;>
    simp only [List.cons_append, List.nil_append, List.singleton_append] <;>
    try exact genericSteps_pairwise
  · refine List.pairwise_cons.mpr ⟨?_, List.pairwise_cons.mpr ⟨gather_ne_generic, genericSteps_pairwise⟩⟩
    intro y hy
    rcases List.mem_cons.mp hy with h | hy
    · exact h ▸ calStep_ne_gather dls.2
    · exact calStep_ne_generic dls.2 y hy
  · exact List.pairwise_cons.mpr ⟨calStep_ne_generic dls.2, genericSteps_pairwise⟩
  · exact List.pairwise_cons.mpr ⟨gather_ne_generic, genericSteps_pairwise⟩

theorem propose_eq (reqs : List (List Char))
    (dls : List (List Char) × List (List Char)) :
    propose_next_steps reqs dls =
      ((if dls.2 ≠ [] then [calStep dls.2] else []) ++
       (if reqs ≠ [] then [gatherStep] else []) ++ genericSteps).take 5 := by
  rw [propose_next_steps]
  rw [pyDedup_eq_self [] _ (fun x _ => rfl) (stepsList_pairwise reqs dls)]

/-! ## Lemmas: key points, requirements, skills -/

theorem mem_kpCandidates (text : List Char) :
    ∀ s ∈ kpCandidates text, 40 ≤ s.length ∧ s.length ≤ 220 ∧ s.getLast? ≠ some ':' := by
  intro s hs
  rw [kpCandidates] at hs
  rcases List.mem_filterMap.mp hs with ⟨l, _, hf⟩
  simp only at hf
  split at hf
  · rename_i hcond
    injection hf with hf'
    simp only [Bool.and_eq_true, decide_eq_true_eq, Bool.not_eq_true',
      decide_eq_false_iff_not] at hcond
    rw [← hf']
    exact ⟨hcond.1.1, hcond.1.2, hcond.2⟩
  · cases hf

theorem take_pyDedupLower_facts (cand : List (List Char)) (n : Nat) :
    ((pyDedupLower [] cand).take n).length ≤ n ∧
    ((pyDedupLower [] cand).take n).Sublist cand ∧
    ((pyDedupLower [] cand).take n).Pairwise (fun a b => lowerStr a ≠ lowerStr b) := by
  refine ⟨?_, ?_, ?_⟩
  · rw [List.length_take]
    exact min_le_left _ _
  · exact (List.take_sublist n _).trans (pyDedupLower_sublist [] cand)
  · exact (pyDedupLower_pairwise [] cand).sublist (List.take_sublist n _)

theorem skillLabels_pairwise :
    (SKILL_DICTIONARY.map (fun pr => pr.2)).Pairwise (· ≠ ·) := by
  rw [show SKILL_DICTIONARY.map (fun pr => pr.2) =
      (["Health Documentation", "Consent & Forms", "Logistics Coordination",
        "Device Management", "Scheduling & Coordination", "Workshop Participation",
        "Application Submission", "Deadline Management", "RFP Review",
        "Requirements Compliance", "Policy Comprehension", "Documentation Management",
        "Data Handling", "Salesforce Literacy", "AI/NLP Literacy"]).map String.toList
    from rfl]
  decide

theorem matchedSkills_sublist (t : List Char) (r : List (List Char)) :
    (matchedSkills t r).Sublist (SKILL_DICTIONARY.map (fun pr => pr.2)) := by
  rw [matchedSkills]
  exact (List.filter_sublist _).map _

theorem matchedSkills_dedup (t : List Char) (r : List (List Char)) :
    pyDedup [] (matchedSkills t r) = matchedSkills t r :=
  pyDedup_eq_self [] _ (fun x _ => rfl)
    (skillLabels_pairwise.sublist (matchedSkills_sublist t r))

/-- With at most `k` scored sentences every scored sentence is selected,
whatever the scores are. -/
theorem topOf_all_mem (text : List Char) (k : Nat)
    (h : (scoredOf text).length ≤ k) :
    ∀ z ∈ scoredOf text, z ∈ topOf text k := by
  intro z hz
  rw [topOf, List.take_of_length_le
    (by rw [(isortBy_perm leScore (scoredOf text)).length_eq]; exact h)]
  exact (isortBy_perm leScore (scoredOf text)).mem_iff.mpr hz

/-- The scored list of the two-identical-sentence document, with the two
(equal) score terms left unevaluated. -/
theorem scoredOf_pair_eq :
    scoredOf (("aaa bbb. aaa bbb.").toList) =
      [(0, ("aaa bbb.").toList,
         sentenceScore (freqTable (word_tokens (("aaa bbb. aaa bbb.").toList)))
           (word_tokens (("aaa bbb.").toList))),
       (1, ("aaa bbb.").toList,
         sentenceScore (freqTable (word_tokens (("aaa bbb. aaa bbb.").toList)))
           (word_tokens (("aaa bbb.").toList)))] := rfl

/-! ## The claims -/

/-- C1 (corrected): the claimed chunked two-pass summarization does not
happen.  On the concrete 8,008-character document `longText`, the brief's
Executive Summary equals the single-call full-text summary, and that
summary differs from what the spec's chunk-at-8,000-then-resummarize
procedure would produce. -/
theorem make_brief_no_chunking_counterexample :
    8000 < longText.length ∧
    (make_brief longText).executiveSummary = summarize_text longText 5 ∧
    summarize_text longText 5 ≠ chunked_summarize longText 5 := by
  refine ⟨by rw [longText_len]; norm_num, ?_, ?_⟩
  · exact make_brief_exec longText (by rw [summarize_longText]; exact longText_ne_nil)
  · rw [summarize_longText, chunked_summarize_longText]
    exact longText_ne_combined

/-- C1 (amended): for every input text — in particular every text longer
than 8,000 characters — brief generation summarizes the full text in a
single `summarize_text` call: whenever that summary is non-empty it is
the brief's Executive Summary verbatim.  No chunking occurs. -/
theorem make_brief_no_chunking (text : List Char) (hlen : 8000 < text.length)
    (h : summarize_text text 5 ≠ []) :
    (make_brief text).executiveSummary = summarize_text text 5 :=
  make_brief_exec text h

/-- Witness for C1 at the concrete 8,008-character document. -/
theorem make_brief_no_chunking_witness :
    8000 < longText.length ∧ summarize_text longText 5 ≠ [] ∧
    (make_brief longText).executiveSummary = summarize_text longText 5 :=
  ⟨by rw [longText_len]; norm_num,
   by rw [summarize_longText]; exact longText_ne_nil,
   make_brief_no_chunking longText (by rw [longText_len]; norm_num)
     (by rw [summarize_longText]; exact longText_ne_nil)⟩

/-- C2 (confirmed): the sentences the summarizer selects are re-sorted
into strictly increasing original-index order before joining (never score
order), and score ties among scored sentences are broken by original
relative order: if an equally-scored later sentence makes the top-`k`
selection, so does the earlier one. -/
theorem summarize_source_order (text : List Char) (k : Nat) :
    ((summarize_selected text k).map (fun t => t.1)).Pairwise (· < ·) ∧
    (∀ x y, x ∈ scoredOf text → y ∈ scoredOf text → x.1 < y.1 → x.2.2 = y.2.2 →
      y ∈ topOf text k → x ∈ topOf text k) := by
  constructor
  · rw [List.pairwise_map]
    exact summarize_selected_pairwise text k
  · exact topOf_stable text k

/-- Witness for C2: two identical sentences score equally; with the
second in the top-2 selection, the theorem puts the first there too. -/
theorem summarize_source_order_witness :
    (0, ("aaa bbb.").toList,
      sentenceScore (freqTable (word_tokens (("aaa bbb. aaa bbb.").toList)))
        (word_tokens (("aaa bbb.").toList))) ∈
      topOf (("aaa bbb. aaa bbb.").toList) 2 := by
  have hx : (0, ("aaa bbb.").toList,
      sentenceScore (freqTable (word_tokens (("aaa bbb. aaa bbb.").toList)))
        (word_tokens (("aaa bbb.").toList))) ∈
      scoredOf (("aaa bbb. aaa bbb.").toList) := by
    rw [scoredOf_pair_eq]
    exact List.mem_cons_self _ _
  have hy : (1, ("aaa bbb.").toList,
      sentenceScore (freqTable (word_tokens (("aaa bbb. aaa bbb.").toList)))
        (word_tokens (("aaa bbb.").toList))) ∈
      scoredOf (("aaa bbb. aaa bbb.").toList) := by
    rw [scoredOf_pair_eq]
    exact List.mem_cons_of_mem _ (List.mem_cons_self _ _)
  have hytop : (1, ("aaa bbb.").toList,
      sentenceScore (freqTable (word_tokens (("aaa bbb. aaa bbb.").toList)))
        (word_tokens (("aaa bbb.").toList))) ∈
      topOf (("aaa bbb. aaa bbb.").toList) 2 :=
    topOf_all_mem _ 2 (by rw [scoredOf_pair_eq]; norm_num) _ hy
  exact (summarize_source_order (("aaa bbb. aaa bbb.").toList) 2).2 _ _ hx hy
    (by norm_num) rfl hytop

/-- C3 (corrected): a month-name date and a day-first numeric date are
both returned, formatted and sorted ascending, and two spellings of the
same calendar date are deduplicated to one entry; but an ISO-style
`YYYY-MM-DD` string is not matched by the date pattern (its first field
has four digits, the pattern allows at most two), so it is omitted —
see the counterexample. -/
theorem find_deadlines_dates :
    (find_deadlines (("Due Jan 5, 2024 and 3/7/2024.").toList)).2 =
      [("Jan 05, 2024").toList, ("Mar 07, 2024").toList] ∧
    (find_deadlines (("Due Jan 5, 2024 and 1/5/2024.").toList)).2 =
      [("Jan 05, 2024").toList] := by
  decide

/-- C3 counterexample: on text containing `"Jan 5, 2024"` and
`"2024-03-07"`, the formatted-date list contains only the month-name
date; the ISO date (a different calendar day) is missing, contradicting
the claim that both are returned. -/
theorem find_deadlines_iso_counterexample :
    (find_deadlines (("Due Jan 5, 2024 and 2024-03-07.").toList)).2 =
      [("Jan 05, 2024").toList] ∧
    ("Mar 07, 2024").toList ∉
      (find_deadlines (("Due Jan 5, 2024 and 2024-03-07.").toList)).2 := by
  decide

/-- C4 (amended, corrected bounds): key-point candidates are the stripped
lines of length between 40 and 220 INCLUSIVE not ending in a colon; the
result is capped at `top_n`, is a sublist of the candidates (original
order) and is deduplicated case-insensitively. -/
theorem find_key_points_bounds (text : List Char) (n : Nat) :
    (find_key_points text n).length ≤ n ∧
    (find_key_points text n).Sublist (kpCandidates text) ∧
    (find_key_points text n).Pairwise (fun a b => lowerStr a ≠ lowerStr b) ∧
    ∀ s ∈ find_key_points text n,
      40 ≤ s.length ∧ s.length ≤ 220 ∧ s.getLast? ≠ some ':' := by
  rcases take_pyDedupLower_facts (kpCandidates text) n with ⟨h1, h2, h3⟩
  refine ⟨h1, h2, h3, ?_⟩
  intro s hs
  exact mem_kpCandidates text s (h2.mem hs)

/-- C4 counterexample: a line of exactly 40 characters (after stripping)
IS a key point — the code's bound is `40 ≤ len ≤ 220` inclusive, not the
claim's strict `40 < len < 220`. -/
theorem find_key_points_forty_counterexample :
    (("abcdefghijabcdefghijabcdefghijabcdefghij").toList).length = 40 ∧
    find_key_points (("abcdefghijabcdefghijabcdefghijabcdefghij").toList) 6 =
      [("abcdefghijabcdefghijabcdefghijabcdefghij").toList] := by
  decide

/-- Witness for C4 at the concrete 40-character line. -/
theorem find_key_points_bounds_witness :
    40 ≤ (("abcdefghijabcdefghijabcdefghijabcdefghij").toList).length ∧
    (("abcdefghijabcdefghijabcdefghijabcdefghij").toList).length ≤ 220 ∧
    (("abcdefghijabcdefghijabcdefghijabcdefghij").toList).getLast? ≠ some ':' :=
  (find_key_points_bounds (("abcdefghijabcdefghijabcdefghijabcdefghij").toList) 6).2.2.2
    (("abcdefghijabcdefghijabcdefghijabcdefghij").toList) (by decide)

/-- C5 (confirmed): `summarize` of the empty string is the empty string,
and on a text whose tokens are all stop-words or of length at most 2 (an
empty frequency table) it returns the first `max_sentences` sentences
joined in order, without failing. -/
theorem summarize_empty_and_stopwords :
    (∀ k, summarize_text [] k = []) ∧
    ∀ (t : List Char) (k : Nat), sentence_split t ≠ [] → word_tokens t ≠ [] →
      (∀ w ∈ word_tokens t, w ∈ STOPWORDS ∨ w.length ≤ 2) →
      summarize_text t k = joinSpace ((sentence_split t).take k) :=
  ⟨fun _ => rfl, fun t k hs hw hall => summarize_fallback t k hs hw hall⟩

/-- Witness for C5 on a two-sentence text made only of stop-words. -/
theorem summarize_empty_and_stopwords_witness :
    summarize_text (("it is so. no he was.").toList) 5 =
      joinSpace ((sentence_split (("it is so. no he was.").toList)).take 5) :=
  summarize_empty_and_stopwords.2 (("it is so. no he was.").toList) 5
    (by decide) (by decide) (by decide)

/-- C6 (confirmed): when no dictionary pattern matches the pool,
`extract_skills` returns exactly the fixed 3-label default set; in every
case the result is non-empty, capped at 15, and (unless it is the
default) a sublist of the dictionary's labels in table iteration order —
hence deduplicated. -/
theorem extract_skills_default_and_cap (t : List Char) (r : List (List Char)) :
    ((SKILL_DICTIONARY.all (fun pr => !(reSearch pr.1 (skillPool t r)))) = true →
      extract_skills t r = defaultSkills) ∧
    extract_skills t r ≠ [] ∧
    (extract_skills t r).length ≤ 15 ∧
    ((extract_skills t r).Sublist (SKILL_DICTIONARY.map (fun pr => pr.2)) ∨
      extract_skills t r = defaultSkills) := by
  have hrw : extract_skills t r =
      (if pyDedup [] (matchedSkills t r) = [] then defaultSkills
       else pyDedup [] (matchedSkills t r)).take 15 := rfl
  rw [hrw, matchedSkills_dedup]
  by_cases hm : matchedSkills t r = []
  · rw [hm]
    refine ⟨fun _ => rfl, by decide, by decide, Or.inr rfl⟩
  · rw [if_neg hm]
    refine ⟨fun hall => ?_, ?_, ?_, ?_⟩
    · exfalso
      apply hm
      rw [matchedSkills, List.filter_eq_nil_iff.mpr, List.map_nil]
      intro pr hpr
      have := List.all_eq_true.mp hall pr hpr
      simp only [Bool.not_eq_eq_eq_not, Bool.not_true] at this
      simp [this]
    · intro htake
      rcases List.take_eq_nil_iff.mp htake with h | h
      · exact absurd h (by norm_num)
      · exact hm h
    · rw [List.length_take]
      exact min_le_left _ _
    · exact Or.inl ((List.take_sublist _ _).trans (matchedSkills_sublist t r))

/-- Witness for C6: on an empty document and no requirements nothing
matches and the default 3-label set is returned. -/
theorem extract_skills_default_and_cap_witness :
    extract_skills [] [] = defaultSkills :=
  (extract_skills_default_and_cap [] []).1 (by decide)

/-- C7 (confirmed): the next-steps list is the calendar-reminder step
(present exactly when a parsed date exists), then the gathering step
(present exactly when a requirement exists), then the three fixed generic
steps, capped at 5 — the exact-string deduplication removes nothing
because the steps are pairwise distinct — and when a parsed date exists
the list begins with the calendar-reminder step naming it. -/
theorem propose_next_steps_spec (reqs : List (List Char))
    (dls : List (List Char) × List (List Char)) :
    propose_next_steps reqs dls =
      ((if dls.2 ≠ [] then [calStep dls.2] else []) ++
       (if reqs ≠ [] then [gatherStep] else []) ++ genericSteps).take 5 ∧
    (dls.2 ≠ [] → (propose_next_steps reqs dls).head? = some (calStep dls.2)) := by
  refine ⟨propose_eq reqs dls, fun h => ?_⟩
  rw [propose_eq reqs dls, if_pos h]
  simp

/-- Witness for C7: with one parsed date, the list begins with the
calendar-reminder step naming it. -/
theorem propose_next_steps_spec_witness :
    (propose_next_steps [] ([], [("Mar 03, 2025").toList])).head? =
      some (calStep [("Mar 03, 2025").toList]) :=
  (propose_next_steps_spec [] ([], [("Mar 03, 2025").toList])).2 (by decide)

/-- C8 (confirmed): `find_requirements` strips the bullet from
`"- Must submit Form A by Friday"`; for every input the result is capped
at 12, keeps the candidates' original order, and is deduplicated
case-insensitively; identical inputs give identical outputs. -/
theorem find_requirements_spec :
    find_requirements (("- Must submit Form A by Friday").toList) =
      [("Must submit Form A by Friday").toList] ∧
    (∀ t, (find_requirements t).length ≤ 12 ∧
      (find_requirements t).Sublist (reqCandidates t) ∧
      (find_requirements t).Pairwise (fun a b => lowerStr a ≠ lowerStr b)) ∧
    (∀ t u, t = u → find_requirements t = find_requirements u) := by
  refine ⟨by decide, fun t => take_pyDedupLower_facts (reqCandidates t) 12,
    fun t u h => by rw [h]⟩

/-- Witness for C8: determinism at the concrete bullet line. -/
theorem find_requirements_spec_witness :
    find_requirements (("- Must submit Form A by Friday").toList) =
      find_requirements (("- Must submit Form A by Friday").toList) :=
  find_requirements_spec.2.2 (("- Must submit Form A by Friday").toList)
    (("- Must submit Form A by Friday").toList) rfl

/-- C9 (confirmed): every core function is a total Lean function by
construction (no exceptions in the embedding; the date parser's failures
are an `Option` swallowed by `find_deadlines`), and on the empty string
each returns its documented fallback value. -/
theorem core_total_on_empty :
    clean_text [] = [] ∧ (∀ k, summarize_text [] k = []) ∧
    find_deadlines [] = ([], []) ∧ find_requirements [] = [] ∧
    (∀ n, find_key_points [] n = []) ∧ extract_skills [] [] = defaultSkills ∧
    make_brief [] = { executiveSummary := ("Not enough content to summarize.").toList,
                      keyPoints := [], deadlines := [], requirements := [],
                      nextSteps := genericSteps } := by
  refine ⟨rfl, fun _ => rfl, by decide, rfl, ?_, by decide, by decide⟩
  intro n
  rw [find_key_points, show pyDedupLower [] (kpCandidates []) = [] from rfl, List.take_nil]

/-- C10 (confirmed): the next-steps list always has between 3 and 5
entries and contains the three (pairwise distinct) generic steps, for
every requirements/deadlines input and hence for every brief. -/
theorem next_steps_bounds :
    (∀ (reqs : List (List Char)) (dls : List (List Char) × List (List Char)),
      3 ≤ (propose_next_steps reqs dls).length ∧
      (propose_next_steps reqs dls).length ≤ 5 ∧
      ∀ g ∈ genericSteps, g ∈ propose_next_steps reqs dls) ∧
    (genericSteps.Pairwise (· ≠ ·)) ∧
    ∀ text, 3 ≤ (make_brief text).nextSteps.length ∧
      (make_brief text).nextSteps.length ≤ 5 := by
  have hmain : ∀ (reqs : List (List Char)) (dls : List (List Char) × List (List Char)),
      3 ≤ (propose_next_steps reqs dls).length ∧
      (propose_next_steps reqs dls).length ≤ 5 ∧
      ∀ g ∈ genericSteps, g ∈ propose_next_steps reqs dls := by
    intro reqs dls
    rw [propose_eq reqs dls]
    have hlen : ((if dls.2 ≠ [] then [calStep dls.2] else []) ++
        (if reqs ≠ [] then [gatherStep] else []) ++ genericSteps).length ≤ 5 := by
      split <;> split <;> simp [genericSteps]
    rw [List.take_of_length_le hlen]
    refine ⟨?_, hlen, ?_⟩
    · split <;> split <;> simp [genericSteps]
    · intro g hg
      exact List.mem_append.mpr (Or.inr hg)
  refine ⟨hmain, genericSteps_pairwise, fun text => ?_⟩
  have hns : (make_brief text).nextSteps =
      propose_next_steps (find_requirements text) (find_deadlines text) := rfl
  rw [hns]
  exact ⟨(hmain _ _).1, (hmain _ _).2.1⟩

/-- Witness for C10: the first generic step is in the next steps of the
empty document. -/
theorem next_steps_bounds_witness :
    ("Email teacher/admin with any clarifying questions (limit to 3 bullets).").toList ∈
      propose_next_steps [] ([], []) :=
  (next_steps_bounds.1 [] ([], [])).2.2
    (("Email teacher/admin with any clarifying questions (limit to 3 bullets).").toList)
    (by decide)

end Brieftool
